import Mathlib

/-
  Verification development for the nlib-mcp-server repository.

  The repository has two Python source files:
  * `api.py`   — the Unitrad search client: query utilities (`strip_query` &c.),
    and the `Api` class driving search → polling → receive (diff merge) cycles.
  * `server.py` — the MCP tool `nlib_search_books` built on httpx, with its own
    inline search/poll loop and a holdings-based filter of the result books.

  JSON values are shallowly embedded as `Val`; Python dicts (insertion ordered,
  unique keys) as association lists `Dict` with first-match lookup `dget` and
  in-place-update-or-append `dset`.  Fallible Python code (KeyError, IndexError,
  TypeError, AttributeError, pydantic validation) is embedded in `Option`.
-/

set_option autoImplicit false

/-- A JSON value, as produced by `response.json()` in the Python sources. -/
inductive Val where
  | vnull : Val
  | vbool : Bool → Val
  | vint : Int → Val
  | vstr : String → Val
  | vlist : List Val → Val
  | vdict : List (String × Val) → Val

/-- A Python dict with string keys, as an insertion-ordered association list. -/
abbrev Dict := List (String × Val)

/-- Dict lookup (`d[k]` / `k in d`): first matching key. -/
def dget (d : Dict) (k : String) : Option Val :=
  match d with
  | [] => none
  | (k', v) :: rest => if k' = k then some v else dget rest k

/-- Dict assignment `d[k] = v`: replace the value at the first occurrence of
`k` keeping its position, or append a fresh pair — exactly Python's dict
update semantics on our ordered-pair representation. -/
def dset (d : Dict) (k : String) (v : Val) : Dict :=
  match d with
  | [] => [(k, v)]
  | (k', v') :: rest => if k' = k then (k', v) :: rest else (k', v') :: dset rest k v

/-- Python truthiness of a JSON value (`if data['books_diff']:` &c.). -/
def truthy : Val → Bool
  | Val.vnull => false
  | Val.vbool b => b
  | Val.vint n => n != 0
  | Val.vstr s => s != ""
  | Val.vlist xs => !xs.isEmpty
  | Val.vdict kvs => !kvs.isEmpty

/-- A value usable as a Python list index (ints; bools are ints in Python). -/
def toIndex : Val → Option Int
  | Val.vint n => some n
  | Val.vbool b => some (if b then 1 else 0)
  | _ => none

/-- Effective Python list index for a list of length `n`: negative indices
count from the end; out-of-range indices are an `IndexError`. -/
def effIdx (n : Nat) (i : Int) : Option Nat :=
  let j : Int := if i < 0 then i + n else i
  if j < 0 then none else if j.toNat < n then some j.toNat else none

/-- Python list read `xs[i]`. -/
def pyGet (bs : List Val) (i : Int) : Option Val :=
  match effIdx bs.length i with
  | some j => bs.get? j
  | none => none

/-- Python list write `xs[i] = v` (here used for the visible effect of
mutating the element object stored at `xs[i]`). -/
def pySet (bs : List Val) (i : Int) (v : Val) : Option (List Val) :=
  match effIdx bs.length i with
  | some j => some (bs.set j v)
  | none => none

/-- Python `len()` of a JSON value. -/
def pyLen : Val → Option Nat
  | Val.vstr s => some s.length
  | Val.vlist xs => some xs.length
  | Val.vdict kvs => some kvs.length
  | _ => none

/-- Fold a fallible step over a list, stopping at the first failure —
the shape of every sequential Python loop whose body may raise. -/
def optFold {α β : Type} (f : β → α → Option β) : β → List α → Option β
  | b, [] => some b
  | b, a :: as =>
    match f b a with
    | some b' => optFold f b' as
    | none => none

/- ------------------------------------------------------------------
   api.py — the diff merge performed by `Api.receive` (lines 170-193)
   ------------------------------------------------------------------ -/

/-- One key of one update record, applied to the `books` list: embeds
api.py lines 183-190 (`self.data['books'][idx][key]` is patched according to
the runtime type of the patch value: list → extend, dict → shallow merge,
otherwise overwrite). -/
def patchFieldCore (bs : List Val) (i : Int) (key : String) (value : Val) : Option (List Val) :=
  match pyGet bs i with
  | some (Val.vdict bk) =>
    match value with
    | Val.vlist vs =>
      match dget bk key with
      | some (Val.vlist old) => pySet bs i (Val.vdict (dset bk key (Val.vlist (old ++ vs))))
      | _ => none
    | Val.vdict kvs =>
      match dget bk key with
      | some (Val.vdict old) =>
        pySet bs i (Val.vdict (dset bk key (Val.vdict (kvs.foldl (fun acc p => dset acc p.1 p.2) old))))
      | _ => none
    | _ => pySet bs i (Val.vdict (dset bk key value))
  | _ => none

/-- `self.data['books'][idx][key] …` for one patch key: look the `books` list
up in the snapshot, patch it, and observe the in-place mutation as an updated
snapshot.  `idxv` is `d['_idx']` (a `KeyError` when absent). -/
def updateField (s : Dict) (idxv : Option Val) (key : String) (value : Val) : Option Dict :=
  match idxv with
  | none => none
  | some iv =>
    match toIndex iv with
    | none => none
    | some i =>
      match dget s "books" with
      | some (Val.vlist bs) =>
        match patchFieldCore bs i key value with
        | some bs' => some (dset s "books" (Val.vlist bs'))
        | none => none
      | _ => none

/-- The body of `for key, value in d.items():` in api.py lines 181-190. -/
def fieldStepS (ud : Dict) (s : Dict) (p : String × Val) : Option Dict :=
  if p.1 = "_idx" then some s
  else updateField s (dget ud "_idx") p.1 p.2

/-- One update record `d` of `data['books_diff']['update']` applied to the
snapshot (api.py lines 180-190); a non-dict record raises at `d.items()`. -/
def applyUpdate (s : Dict) (u : Val) : Option Dict :=
  match u with
  | Val.vdict ud => optFold (fieldStepS ud) s ud
  | _ => none

/-- api.py lines 175-177: every top-level response key other than
`books_diff` overwrites the corresponding snapshot field. -/
def topOverwrite (s : Dict) (data : Dict) : Dict :=
  data.foldl (fun acc p => if p.1 = "books_diff" then acc else dset acc p.1 p.2) s

/-- The merge step of `Api.receive` (api.py lines 170-193) as a function from
the current snapshot (`self.data`, possibly still `None`) and the parsed
response to the new snapshot; `none` is an uncaught exception inside the
merge.  With a truthy `books_diff`: extend `books` by the insert list, then
overwrite the other top-level keys, then apply the update records; otherwise
the response replaces the snapshot wholesale. -/
def receiveMerge (snap : Option Dict) (data : Dict) : Option Dict :=
  match dget data "books_diff" with
  | some bd =>
    if truthy bd then
      match snap with
      | some s =>
        match bd with
        | Val.vdict bdd =>
          match dget bdd "insert" with
          | some (Val.vlist ins) =>
            match dget s "books" with
            | some (Val.vlist bs) =>
              let s2 := topOverwrite (dset s "books" (Val.vlist (bs ++ ins))) data
              match dget bdd "update" with
              | some (Val.vlist us) => optFold applyUpdate s2 us
              | _ => none
            | _ => none
          | _ => none
        | _ => none
      | none => none
    else some data
  | none => some data

/- ------------------------------------------------------------------
   api.py — query utilities
   ------------------------------------------------------------------ -/

/-- The fixed query field set of api.py line 17. -/
def FIELDS : List String :=
  ["free", "title", "author", "publisher", "isbn", "ndc", "year_start", "year_end", "region"]

/-- `query[k] != ''` is false exactly on the empty string. -/
def isEmptyStr : Val → Bool
  | Val.vstr s => s == ""
  | _ => false

/-- `strip_query` (api.py lines 268-282): keep, in field order, exactly the
fields present in the query whose value is not the empty string. -/
def strip_query (query : Dict) : Dict :=
  FIELDS.foldl (fun tmp k =>
    match dget query k with
    | some v => if isEmptyStr v then tmp else dset tmp k v
    | none => tmp) []

/- ------------------------------------------------------------------
   api.py — the Api session state machine
   ------------------------------------------------------------------ -/

/-- The mutable state of an `Api` object: the cancellation flag set by
`kill()` and the accumulated snapshot `self.data`. -/
structure ApiState where
  killed : Bool
  data : Option Dict

/-- `Api.kill` (api.py lines 110-112). -/
def kill (st : ApiState) : ApiState := { st with killed := true }

/-- A continuation spawned with `asyncio.create_task`. -/
inductive STask where
  | searchT : Dict → STask
  | pollingT : STask

/-- Observable effects of one scheduled continuation: a network request with
its command and parameters, a snapshot callback invocation, an
`asyncio.sleep` (milliseconds), and a spawned continuation. -/
inductive Eff where
  | request : String → Dict → Eff
  | callbackEv : Dict → Eff
  | sleepEv : Nat → Eff
  | createTask : STask → Eff

/-- Result of running one continuation: new state, effects in program order,
and whether an exception escaped it (to be caught by the enclosing
`try` of `search`/`polling`). -/
structure StepOut where
  st : ApiState
  effs : List Eff
  raised : Bool

/-- `data['version'] == 1` (Python `==`, where `True == 1`). -/
def pyEq1 : Val → Bool
  | Val.vint n => n == 1
  | Val.vbool b => b
  | _ => false

/-- The continuation decision of `Api.receive` (api.py lines 199-208):
poll again after 20ms when `data['running'] is True`, `data['version'] == 1`
and the merged `books` is empty; after 500ms when running with anything else;
schedule nothing when not running. -/
def schedule (data s' : Dict) : Option (List Eff) :=
  match dget data "running" with
  | none => none
  | some rv =>
    match rv with
    | Val.vbool true =>
      match dget data "version" with
      | none => none
      | some vv =>
        if pyEq1 vv then
          match dget s' "books" with
          | none => none
          | some bv =>
            match pyLen bv with
            | none => none
            | some n =>
              if n == 0 then some [Eff.sleepEv 20, Eff.createTask STask.pollingT]
              else some [Eff.sleepEv 500, Eff.createTask STask.pollingT]
        else some [Eff.sleepEv 500, Eff.createTask STask.pollingT]
    | _ => some []

/-- `Api.receive` (api.py lines 159-208): no-op when killed; otherwise merge,
invoke the callback with the merged snapshot, and decide the continuation.
An exception in the merge or in the continuation decision sets `raised`
(partial in-place mutations of a failed merge are not modelled). -/
def receiveStep (st : ApiState) (data : Dict) : StepOut :=
  if st.killed then ⟨st, [], false⟩
  else
    match receiveMerge st.data data with
    | none => ⟨st, [], true⟩
    | some s' =>
      match schedule data s' with
      | none => ⟨{ st with data := some s' }, [Eff.callbackEv s'], true⟩
      | some effs => ⟨{ st with data := some s' }, Eff.callbackEv s' :: effs, false⟩

/-- The network outcome of the single request of one `search` run. -/
inductive SearchNet where
  | fail : SearchNet
  | ok : Dict → SearchNet

/-- `Api.search` (api.py lines 114-133): no-op when killed; on any exception
(transport/status failure, or one escaping `receive`) sleep 1s and respawn
the identical search. -/
def searchStep (st : ApiState) (q : Dict) (net : SearchNet) : ApiState × List Eff :=
  if st.killed then (st, [])
  else
    match net with
    | SearchNet.fail =>
      (st, [Eff.request "search" (strip_query q), Eff.sleepEv 1000,
            Eff.createTask (STask.searchT q)])
    | SearchNet.ok d =>
      let o := receiveStep st d
      if o.raised then
        (o.st, Eff.request "search" (strip_query q) ::
               (o.effs ++ [Eff.sleepEv 1000, Eff.createTask (STask.searchT q)]))
      else (o.st, Eff.request "search" (strip_query q) :: o.effs)

/-- The network outcome of the single request of one `polling` run; the body
may parse to `null` ("no change yet"). -/
inductive PollNet where
  | fail : PollNet
  | nullResp : PollNet
  | ok : Dict → PollNet

/-- The polling request parameters, rebuilt from the current snapshot
at every attempt (api.py lines 142-147). -/
def pollingParams (st : ApiState) : Option Dict :=
  match st.data with
  | none => none
  | some d =>
    match dget d "uuid" with
    | none => none
    | some u =>
      match dget d "version" with
      | none => none
      | some v => some [("uuid", u), ("version", v), ("diff", Val.vint 1), ("timeout", Val.vint 10)]

/-- `Api.polling` (api.py lines 135-157): no-op when killed; a `null` body
and any exception both sleep 1s and respawn polling. -/
def pollingStep (st : ApiState) (net : PollNet) : ApiState × List Eff :=
  if st.killed then (st, [])
  else
    match pollingParams st with
    | none => (st, [Eff.sleepEv 1000, Eff.createTask STask.pollingT])
    | some ps =>
      match net with
      | PollNet.fail =>
        (st, [Eff.request "polling" ps, Eff.sleepEv 1000, Eff.createTask STask.pollingT])
      | PollNet.nullResp =>
        (st, [Eff.request "polling" ps, Eff.sleepEv 1000, Eff.createTask STask.pollingT])
      | PollNet.ok d =>
        let o := receiveStep st d
        if o.raised then
          (o.st, Eff.request "polling" ps ::
                 (o.effs ++ [Eff.sleepEv 1000, Eff.createTask STask.pollingT]))
        else (o.st, Eff.request "polling" ps :: o.effs)

/-- One scheduled continuation together with its network outcome. -/
inductive SessIn where
  | sSearch : Dict → SearchNet → SessIn
  | sPoll : PollNet → SessIn

/-- Run one scheduled continuation. -/
def sessStep (st : ApiState) : SessIn → ApiState × List Eff
  | SessIn.sSearch q net => searchStep st q net
  | SessIn.sPoll net => pollingStep st net

/-- Run a sequence of scheduled continuations, concatenating their effects. -/
def sessRun (st : ApiState) : List SessIn → ApiState × List Eff
  | [] => (st, [])
  | i :: is =>
    let o := sessStep st i
    let r := sessRun o.1 is
    (r.1, o.2 ++ r.2)

/- ------------------------------------------------------------------
   server.py — the nlib_search_books tool
   ------------------------------------------------------------------ -/

/-- Structural equality of JSON values, playing the role of Python `==` in
membership tests (the numeric `True == 1` identification and order-free dict
equality are not needed by any membership the tool performs). -/
def valEq : Val → Val → Bool
  | Val.vnull, Val.vnull => true
  | Val.vbool a, Val.vbool b => a == b
  | Val.vint a, Val.vint b => a == b
  | Val.vstr a, Val.vstr b => a == b
  | Val.vlist as, Val.vlist bs => valListEq as bs
  | Val.vdict as, Val.vdict bs => valPairsEq as bs
  | _, _ => false
where
  valListEq : List Val → List Val → Bool
    | [], [] => true
    | a :: as, b :: bs => valEq a b && valListEq as bs
    | _, _ => false
  valPairsEq : List (String × Val) → List (String × Val) → Bool
    | [], [] => true
    | a :: as, b :: bs => (a.1 == b.1 && valEq a.2 b.2) && valPairsEq as bs
    | _, _ => false

/-- Substring test, for Python `sub in s` on strings. -/
def substrB (sub s : String) : Bool :=
  sub == "" || (s.splitOn sub).length > 1

/-- Python membership `x in c`: element equality for a list, substring for a
string, key membership for a dict; `none` is a `TypeError`. -/
def pyIn (x : Val) (c : Val) : Option Bool :=
  match c with
  | Val.vlist xs => some (xs.any (fun y => valEq x y))
  | Val.vstr s =>
    match x with
    | Val.vstr sub => some (substrB sub s)
    | _ => none
  | Val.vdict kvs =>
    match x with
    | Val.vstr k => some (kvs.any (fun p => p.1 == k))
    | Val.vlist _ => none
    | Val.vdict _ => none
    | _ => some false
  | _ => none

/-- The pydantic `BookSummary` model of server.py lines 9-16; the tool only
ever passes strings for every field. -/
structure BookSummary where
  id : String
  isbn : String
  title : String
  author : String
  publisher : String
  published_year : String
  url : String

/-- pydantic validation of a `str` field: only a string is accepted. -/
def asStr : Val → Option String
  | Val.vstr s => some s
  | _ => none

/-- Python `str()` of a scalar (`str()` of containers is not reached by
protocol-shaped data and is left unmodelled). -/
def pyStrScalar : Val → Option String
  | Val.vnull => some "None"
  | Val.vbool b => some (if b then "True" else "False")
  | Val.vint n => some (toString n)
  | Val.vstr s => some s
  | _ => none

/-- `'holdings' in book and 100914 in book['holdings']`
(server.py line 63). -/
def holdingsMatch (book : Val) : Option Bool :=
  match book with
  | Val.vdict bd =>
    match dget bd "holdings" with
    | none => some false
    | some h => pyIn (Val.vint 100914) h
  | _ =>
    match pyIn (Val.vstr "holdings") book with
    | some true => none
    | some false => some false
    | none => none

/-- The `BookSummary(...)` construction of server.py lines 64-72 for one
matching book, with every field looked up and validated as the code does. -/
def buildSummary (book : Val) : Option BookSummary :=
  match book with
  | Val.vdict bd =>
    match dget bd "id" with
    | none => none
    | some idv =>
      match asStr idv with
      | none => none
      | some idS =>
        match dget bd "isbn" with
        | none => none
        | some isbnv =>
          match (if truthy isbnv then asStr isbnv else some "") with
          | none => none
          | some isbnS =>
            match dget bd "title" with
            | none => none
            | some titlev =>
              match asStr titlev with
              | none => none
              | some titleS =>
                match dget bd "author" with
                | none => none
                | some authorv =>
                  match asStr authorv with
                  | none => none
                  | some authorS =>
                    match dget bd "publisher" with
                    | none => none
                    | some pubv =>
                      match asStr pubv with
                      | none => none
                      | some pubS =>
                        match (match dget bd "pubdate" with
                               | some pd => if truthy pd then pyStrScalar pd else some ""
                               | none => some "") with
                        | none => none
                        | some pyS =>
                          match dget bd "url" with
                          | none => none
                          | some urlv =>
                            match urlv with
                            | Val.vdict ud =>
                              match (match dget ud "100914" with
                                     | some uv => if truthy uv then asStr uv else some ""
                                     | none => some "") with
                              | none => none
                              | some urlS =>
                                some ⟨idS, isbnS, titleS, authorS, pubS, pyS, urlS⟩
                            | _ => none
  | _ => none

/-- The result-building loop of server.py lines 61-72: books whose holdings
do not contain library 100914 are skipped; a matching book that fails
validation raises (crashing the tool). -/
def mkRets : List Val → Option (List BookSummary)
  | [] => some []
  | b :: rest =>
    match holdingsMatch b with
    | none => none
    | some m =>
      if m then
        match buildSummary b with
        | none => none
        | some s =>
          match mkRets rest with
          | none => none
          | some tail => some (s :: tail)
      else mkRets rest

/-- The post-loop part of the tool: iterate `data['books']` and build the
summaries (a non-list `books` of protocol-violating data is unmodelled). -/
def toolFinish (data : Dict) : Option (List BookSummary) :=
  match dget data "books" with
  | some (Val.vlist bsv) => mkRets bsv
  | _ => none

/-- One HTTP response handed to the tool by its environment. -/
structure HResp where
  status : Nat
  body : Val

/-- Observable effects of one tool invocation: the search request, each
polling request (with the uuid captured once and the current version), and
the `ctx.info` / `ctx.error` notifications. -/
inductive TEff where
  | reqSearch : TEff
  | reqPolling : Val → Val → TEff
  | ctxInfo : TEff
  | ctxError : TEff

/-- The value the tool returns: `json.dumps({"books": []})` after a reported
error, or the JSON with the built book summaries. -/
inductive ToolRes where
  | errorBooks : ToolRes
  | okBooks : List BookSummary → ToolRes

/-- The `while "中津川市" in data['remains']:` loop of server.py lines 51-59,
consuming one environment response per polling round; `none` is an uncaught
exception (or an exhausted environment). -/
def pollLoop (uuid : Val) (da : Dict) (env : List HResp) : Option (List TEff × ToolRes) :=
  match dget da "remains" with
  | none => none
  | some remv =>
    match pyIn (Val.vstr "中津川市") remv with
    | none => none
    | some false =>
      match toolFinish da with
      | some rets => some ([], ToolRes.okBooks rets)
      | none => none
    | some true =>
      match env with
      | [] => none
      | r :: rest =>
        if r.status == 200 then
          match r.body with
          | Val.vdict d2 =>
            match pollLoop uuid d2 rest with
            | some (effs, res) =>
              some (TEff.reqPolling uuid ((dget da "version").getD Val.vnull) ::
                    TEff.ctxInfo :: effs, res)
            | none => none
          | _ => none
        else
          some ([TEff.reqPolling uuid ((dget da "version").getD Val.vnull),
                 TEff.ctxInfo, TEff.ctxError], ToolRes.errorBooks)

/-- `nlib_search_books` (server.py lines 22-77) over the sequence of HTTP
responses its environment serves (first the search response, then one per
polling round). -/
def nlibTool (env : List HResp) : Option (List TEff × ToolRes) :=
  match env with
  | [] => none
  | r :: rest =>
    if r.status == 200 then
      match r.body with
      | Val.vdict da =>
        match pollLoop ((dget da "uuid").getD Val.vnull) da rest with
        | some (effs, res) => some (TEff.reqSearch :: effs, res)
        | none => none
      | _ => none
    else some ([TEff.reqSearch, TEff.ctxError], ToolRes.errorBooks)

/-- True when a request effect is an HTTP request. -/
def isReqEff : TEff → Bool
  | TEff.reqSearch => true
  | TEff.reqPolling _ _ => true
  | _ => false

/-- No request effect occurs after a reported error. -/
def noReqAfterError : List TEff → Bool
  | [] => true
  | TEff.ctxError :: rest => rest.all (fun e => !isReqEff e)
  | _ :: rest => noReqAfterError rest

/-- Map a fallible function over a list, failing on the first failure. -/
def mapOpt {α β : Type} (f : α → Option β) : List α → Option (List β)
  | [] => some []
  | a :: as =>
    match f a with
    | none => none
    | some b =>
      match mapOpt f as with
      | none => none
      | some bs => some (b :: bs)

/- ------------------------------------------------------------------
   Spec-side definitions (written from the specification's words,
   to be compared with the source-derived definitions above)
   ------------------------------------------------------------------ -/

/-- One key of one patch record, per the spec's step (3): a sequence extends
the target field (which must already be a sequence), a mapping shallow-merges
into the target field (overwrite on collision), anything else overwrites. -/
def fieldStepB (ud : Dict) (bs : List Val) (p : String × Val) : Option (List Val) :=
  if p.1 = "_idx" then some bs
  else
    match dget ud "_idx" with
    | none => none
    | some iv =>
      match toIndex iv with
      | none => none
      | some i => patchFieldCore bs i p.1 p.2

/-- One patch record applied to the books sequence, per the spec's step (3). -/
def specPatchRecord (bs : List Val) (u : Val) : Option (List Val) :=
  match u with
  | Val.vdict ud => optFold (fieldStepB ud) bs ud
  | _ => none

/-- The merge as the specification describes it: when `books_diff` is present
and non-null, (1) append `books_diff.insert` to `snapshot.books` in order,
(2) overwrite every top-level snapshot field named by a response key other
than `books_diff`, (3) apply every patch record of `books_diff.update` to the
books sequence; when no diff is present, the response replaces the snapshot
wholesale. -/
def mergeSpec (snap : Dict) (data : Dict) : Option Dict :=
  match dget data "books_diff" with
  | none => some data
  | some Val.vnull => some data
  | some (Val.vdict bdd) =>
    match dget bdd "insert", dget snap "books" with
    | some (Val.vlist ins), some (Val.vlist bs0) =>
      let s2 := topOverwrite (dset snap "books" (Val.vlist (bs0 ++ ins))) data
      match dget bdd "update", dget s2 "books" with
      | some (Val.vlist us), some (Val.vlist cur) =>
        match optFold specPatchRecord cur us with
        | some cur' => some (dset s2 "books" (Val.vlist cur'))
        | none => none
      | _, _ => none
    | _, _ => none
  | some _ => none

/-- `strip` as the specification states it: exactly the fields of the fixed
field set whose value is present and non-empty, in field order. -/
def stripSpec (query : Dict) : Dict :=
  FIELDS.filterMap (fun k =>
    match dget query k with
    | some v => if isEmptyStr v then none else some (k, v)
    | none => none)

/-- The precondition claim C7 states for the merge to complete: every `_idx`
of an update record addresses an existing element of the books sequence, and
every sequence-valued patch key targets a field that is already a sequence. -/
def claimPre (bs : List Val) (us : List Val) : Bool :=
  us.all fun u =>
    match u with
    | Val.vdict ud =>
      match dget ud "_idx" with
      | some iv =>
        match toIndex iv with
        | some i =>
          match effIdx bs.length i with
          | some j =>
            ud.all fun p =>
              match p.2 with
              | Val.vlist _ =>
                (p.1 == "_idx") ||
                (match bs.get? j with
                 | some (Val.vdict bk) =>
                   (match dget bk p.1 with
                    | some (Val.vlist _) => true
                    | _ => false)
                 | _ => false)
              | _ => true
          | none => false
        | none => false
      | none => false
    | _ => false

/-- Applicability of one patch key against the current books sequence: the
target element exists and is a record, and a sequence/mapping-valued patch
key targets a field that is already a sequence/mapping. -/
def patchFieldOK (bs : List Val) (i : Int) (k : String) (v : Val) : Bool :=
  match pyGet bs i with
  | some (Val.vdict bk) =>
    match v with
    | Val.vlist _ =>
      (match dget bk k with
       | some (Val.vlist _) => true
       | _ => false)
    | Val.vdict _ =>
      (match dget bk k with
       | some (Val.vdict _) => true
       | _ => false)
    | _ => true
  | _ => false

/-- Well-formedness of one update record against the current books sequence:
a dict with unique keys, an integer `_idx` in range, and every patch key
applicable. -/
def recordWF (bs : List Val) (u : Val) : Prop :=
  match u with
  | Val.vdict ud =>
    (ud.map Prod.fst).Nodup ∧
    ∃ iv i j, dget ud "_idx" = some iv ∧ toIndex iv = some i ∧
      effIdx bs.length i = some j ∧
      ∀ p ∈ ud, p.1 ≠ "_idx" → patchFieldOK bs i p.1 p.2 = true
  | _ => False

/-- Well-formedness of an update-record sequence, each record judged against
the books sequence as it stands when that record applies. -/
def updsWF (bs : List Val) : List Val → Prop
  | [] => True
  | u :: us => recordWF bs u ∧ ∀ bs', specPatchRecord bs u = some bs' → updsWF bs' us

/-- `u` is an update record addressing position `m` of a books sequence of
length `n`. -/
def targets (n m : Nat) (u : Val) : Bool :=
  match u with
  | Val.vdict ud =>
    match dget ud "_idx" with
    | some iv =>
      match toIndex iv with
      | some i => effIdx n i == some m
      | none => false
    | none => false
  | _ => false

/- ------------------------------------------------------------------
   Concrete inputs used by counterexamples and witnesses
   ------------------------------------------------------------------ -/

/-- Base snapshot of the spec's merge-correctness example:
`books = [{a:1, list:[1]}]`. -/
def exSnapC1 : Dict :=
  [("uuid", Val.vstr "u"), ("version", Val.vint 1), ("running", Val.vbool true),
   ("books", Val.vlist [Val.vdict [("a", Val.vint 1), ("list", Val.vlist [Val.vint 1])]])]

/-- Diff response of the spec's merge-correctness example:
`update = [{_idx:0, list:[2], a:5}]`. -/
def exDataC1 : Dict :=
  [("uuid", Val.vstr "u"), ("version", Val.vint 2), ("running", Val.vbool true),
   ("books_diff", Val.vdict
     [("insert", Val.vlist []),
      ("update", Val.vlist
        [Val.vdict [("_idx", Val.vint 0), ("list", Val.vlist [Val.vint 2]), ("a", Val.vint 5)]])])]

/-- A full (non-diff) response carrying version 5. -/
def exDataV5 : Dict :=
  [("uuid", Val.vstr "u"), ("version", Val.vint 5), ("running", Val.vbool true),
   ("books", Val.vlist [])]

/-- A full (non-diff) response carrying version 3. -/
def exDataV3 : Dict :=
  [("uuid", Val.vstr "u"), ("version", Val.vint 3), ("running", Val.vbool true),
   ("books", Val.vlist [])]

/-- Snapshot with one existing book entry, used against a diff response that
also carries a top-level `books` key. -/
def exSnapC6 : Dict :=
  [("uuid", Val.vstr "u"), ("version", Val.vint 1), ("running", Val.vbool true),
   ("books", Val.vlist [Val.vdict [("a", Val.vint 1)]])]

/-- A diff response that also carries a top-level `books` key (an empty
sequence), with an empty diff. -/
def exDataC6 : Dict :=
  [("uuid", Val.vstr "u"), ("version", Val.vint 2), ("running", Val.vbool false),
   ("books", Val.vlist []),
   ("books_diff", Val.vdict [("insert", Val.vlist []), ("update", Val.vlist [])])]

/-- A diff response with one insert, no updates and no top-level books key. -/
def exDataC6w : Dict :=
  [("version", Val.vint 2), ("running", Val.vbool false),
   ("books_diff", Val.vdict
     [("insert", Val.vlist [Val.vdict [("b", Val.vint 2)]]), ("update", Val.vlist [])])]

/-- A well-formed update record list: in-range `_idx`, a sequence extension
of an existing sequence field and a scalar overwrite. -/
def exUpdsC7w : List Val :=
  [Val.vdict [("_idx", Val.vint 0), ("list", Val.vlist [Val.vint 2]), ("a", Val.vint 5)]]

/-- A diff response whose updates are `exUpdsC7w`, with no top-level books
key. -/
def exDataC7w : Dict :=
  [("version", Val.vint 2), ("running", Val.vbool true),
   ("books_diff", Val.vdict
     [("insert", Val.vlist []), ("update", Val.vlist exUpdsC7w)])]

/-- Snapshot whose single book has no fields. -/
def exSnapC7 : Dict :=
  [("uuid", Val.vstr "u"), ("version", Val.vint 1), ("running", Val.vbool true),
   ("books", Val.vlist [Val.vdict []])]

/-- The update records of `exDataC7`: one in-range record whose only patch
key carries a mapping aimed at a missing field. -/
def exUpdsC7 : List Val :=
  [Val.vdict [("_idx", Val.vint 0), ("m", Val.vdict [("a", Val.vint 1)])]]

/-- A diff response whose update record has an in-range `_idx`, no
sequence-valued patch key, and a mapping-valued patch key whose target field
does not exist. -/
def exDataC7 : Dict :=
  [("uuid", Val.vstr "u"), ("version", Val.vint 2), ("running", Val.vbool true),
   ("books_diff", Val.vdict [("insert", Val.vlist []), ("update", Val.vlist exUpdsC7)])]

/-- A diff response whose update record has an out-of-range `_idx`. -/
def exDataC7oor : Dict :=
  [("uuid", Val.vstr "u"), ("version", Val.vint 2), ("running", Val.vbool true),
   ("books_diff", Val.vdict
     [("insert", Val.vlist []),
      ("update", Val.vlist [Val.vdict [("_idx", Val.vint 5), ("a", Val.vint 1)]])])]

/-- A first response with `running` true, version 1 and no books yet. -/
def exDataC5 : Dict :=
  [("uuid", Val.vstr "u"), ("version", Val.vint 1), ("running", Val.vbool true),
   ("books", Val.vlist [])]

/-- A session state holding a snapshot with a uuid and version. -/
def exStateC3 : ApiState :=
  ⟨false, some [("uuid", Val.vstr "u"), ("version", Val.vint 1)]⟩

/-- The polling parameters `exStateC3` yields. -/
def exParamsC3 : Dict :=
  [("uuid", Val.vstr "u"), ("version", Val.vint 1), ("diff", Val.vint 1),
   ("timeout", Val.vint 10)]

/-- The query `{title:"", author:"x"}` of the spec's strip example. -/
def exQueryC8 : Dict :=
  [("title", Val.vstr ""), ("author", Val.vstr "x")]

/-- A result book held by library 100914, with every field the tool reads. -/
def exBookA : Val :=
  Val.vdict
    [("holdings", Val.vlist [Val.vint 100914]), ("id", Val.vstr "b1"),
     ("isbn", Val.vstr "111"), ("title", Val.vstr "T"), ("author", Val.vstr "A"),
     ("publisher", Val.vstr "P"), ("pubdate", Val.vstr "2001"),
     ("url", Val.vdict [("100914", Val.vstr "http")])]

/-- A result book with no holdings entry. -/
def exBookB : Val :=
  Val.vdict [("id", Val.vstr "b2")]

/-- The summary the tool builds from `exBookA`. -/
def exSummaryA : BookSummary :=
  ⟨"b1", "111", "T", "A", "P", "2001", "http"⟩

/-- A final search response with no pending remains and two books. -/
def exDataC10 : Dict :=
  [("uuid", Val.vstr "s1"), ("version", Val.vint 2), ("running", Val.vbool false),
   ("remains", Val.vlist []), ("books", Val.vlist [exBookA, exBookB])]

/- ------------------------------------------------------------------
   Dictionary and fold lemmas
   ------------------------------------------------------------------ -/

@[simp]
theorem dget_dset_self (s : Dict) (k : String) (v : Val) :
    dget (dset s k v) k = some v := by
  induction s with
  | nil => simp [dget, dset]
  | cons p rest ih =>
    by_cases h : p.1 = k
    · simp [dget, dset, h]
    · simpa [dget, dset, h] using ih

theorem dget_dset_ne (s : Dict) {k k' : String} (v : Val) (h : k ≠ k') :
    dget (dset s k v) k' = dget s k' := by
  induction s with
  | nil => simp [dget, dset, h]
  | cons p rest ih =>
    by_cases hp : p.1 = k
    · subst hp
      simp [dget, dset, h]
    · by_cases hp' : p.1 = k'
      · simp [dget, dset, hp, hp', Ne.symm h]
      · simp [dget, dset, hp, hp', ih]

theorem dset_dset_self (s : Dict) (k : String) (v v' : Val) :
    dset (dset s k v) k v' = dset s k v' := by
  induction s with
  | nil => simp [dset]
  | cons p rest ih =>
    by_cases hp : p.1 = k
    · simp [dset, hp]
    · simp [dset, hp, ih]

theorem dset_eq_of_dget {s : Dict} {k : String} {v : Val} (h : dget s k = some v) :
    dset s k v = s := by
  induction s with
  | nil => simp [dget] at h
  | cons p rest ih =>
    by_cases hp : p.1 = k
    · simp only [dget, if_pos hp] at h
      simp only [dset, if_pos hp]
      rw [← Option.some.inj h]
    · simp only [dget, if_neg hp] at h
      simp only [dset, if_neg hp]
      rw [ih h]

theorem dget_eq_none_of_keys {s : Dict} {k : String} (h : ∀ p ∈ s, p.1 ≠ k) :
    dget s k = none := by
  induction s with
  | nil => rfl
  | cons p rest ih =>
    have hp := h p (List.mem_cons_self _ _)
    simp only [dget, if_neg hp]
    exact ih (fun q hq => h q (List.mem_cons_of_mem _ hq))

theorem keys_of_dget_eq_none {s : Dict} {k : String} (h : dget s k = none) :
    ∀ p ∈ s, p.1 ≠ k := by
  induction s with
  | nil => simp
  | cons p rest ih =>
    intro q hq
    by_cases hp : p.1 = k
    · simp [dget, hp] at h
    · simp only [dget, if_neg hp] at h
      rcases List.mem_cons.mp hq with hq | hq
      · simpa [hq] using hp
      · exact ih h q hq

theorem dset_append_of_keys {s : Dict} {k : String} (v : Val)
    (h : ∀ p ∈ s, p.1 ≠ k) : dset s k v = s ++ [(k, v)] := by
  induction s with
  | nil => simp [dset]
  | cons p rest ih =>
    have hp := h p (List.mem_cons_self _ _)
    simp only [dset, if_neg hp, List.cons_append, List.cons.injEq, true_and]
    exact ih (fun q hq => h q (List.mem_cons_of_mem _ hq))

theorem topOverwrite_cons (s : Dict) (p : String × Val) (rest : Dict) :
    topOverwrite s (p :: rest) =
      if p.1 = "books_diff" then topOverwrite s rest
      else topOverwrite (dset s p.1 p.2) rest := by
  by_cases h : p.1 = "books_diff" <;> simp [topOverwrite, h]

theorem topOverwrite_dget_of_keys {data : Dict} {k : String}
    (h : ∀ p ∈ data, p.1 ≠ k) (s : Dict) :
    dget (topOverwrite s data) k = dget s k := by
  induction data generalizing s with
  | nil => rfl
  | cons p rest ih =>
    have hp : p.1 ≠ k := h p (List.mem_cons_self _ _)
    have hrest : ∀ q ∈ rest, q.1 ≠ k := fun q hq => h q (List.mem_cons_of_mem _ hq)
    rw [topOverwrite_cons]
    by_cases hbd : p.1 = "books_diff"
    · rw [if_pos hbd]; exact ih hrest s
    · rw [if_neg hbd, ih hrest, dget_dset_ne]
      exact hp

theorem topOverwrite_dget_of_mem {data : Dict} {k : String} {v : Val}
    (hnd : (data.map Prod.fst).Nodup) (hlk : dget data k = some v)
    (hk : k ≠ "books_diff") (s : Dict) :
    dget (topOverwrite s data) k = some v := by
  induction data generalizing s with
  | nil => simp [dget] at hlk
  | cons p rest ih =>
    simp only [List.map_cons, List.nodup_cons] at hnd
    rw [topOverwrite_cons]
    by_cases hp : p.1 = k
    · simp only [dget, if_pos hp] at hlk
      have hrest : ∀ q ∈ rest, q.1 ≠ k := by
        intro q hq hqk
        exact hnd.1 (by rw [hp]; exact hqk ▸ List.mem_map_of_mem Prod.fst hq)
      rw [if_neg (hp ▸ hk), topOverwrite_dget_of_keys hrest, ← hp] at *
      rw [dget_dset_self, hlk]
    · simp only [dget, if_neg hp] at hlk
      by_cases hbd : p.1 = "books_diff"
      · rw [if_pos hbd]; exact ih hnd.2 hlk s
      · rw [if_neg hbd]; exact ih hnd.2 hlk (dset s p.1 p.2)

@[simp]
theorem optFold_nil {α β : Type} (f : β → α → Option β) (b : β) :
    optFold f b [] = some b := rfl

theorem optFold_cons_some {α β : Type} {f : β → α → Option β} {b b' : β} {a : α}
    (as : List α) (h : f b a = some b') :
    optFold f b (a :: as) = optFold f b' as := by
  simp [optFold, h]

theorem optFold_cons_none {α β : Type} {f : β → α → Option β} {b : β} {a : α}
    (as : List α) (h : f b a = none) :
    optFold f b (a :: as) = none := by
  simp [optFold, h]

/- ------------------------------------------------------------------
   Structure of the patch primitives
   ------------------------------------------------------------------ -/

theorem effIdx_lt {n : Nat} {i : Int} {j : Nat} (h : effIdx n i = some j) : j < n := by
  unfold effIdx at h
  split at h <;> simp at h <;> omega

theorem pyGet_eq {bs : List Val} {i : Int} {x : Val} (h : pyGet bs i = some x) :
    ∃ j, effIdx bs.length i = some j ∧ bs.get? j = some x := by
  unfold pyGet at h
  split at h
  · exact ⟨_, by assumption, h⟩
  · simp at h

theorem pySet_eq {bs : List Val} {i : Int} {w : Val} {bs' : List Val}
    (h : pySet bs i w = some bs') :
    ∃ j, effIdx bs.length i = some j ∧ bs' = bs.set j w := by
  unfold pySet at h
  split at h
  · exact ⟨_, by assumption, (Option.some.inj h).symm⟩
  · simp at h

theorem pySet_of_effIdx {bs : List Val} {i : Int} {j : Nat} (w : Val)
    (h : effIdx bs.length i = some j) : pySet bs i w = some (bs.set j w) := by
  unfold pySet
  rw [h]

/-- Every successful single-key patch replaces the addressed element by the
same record with one field rebound. -/
theorem patchFieldCore_shape {bs : List Val} {i : Int} {k : String} {v : Val} {bs' : List Val}
    (h : patchFieldCore bs i k v = some bs') :
    ∃ j bk nv, effIdx bs.length i = some j ∧ bs.get? j = some (Val.vdict bk) ∧
      bs' = bs.set j (Val.vdict (dset bk k nv)) := by
  unfold patchFieldCore at h
  split at h
  case _ hg =>
    obtain ⟨j, hj, hget⟩ := pyGet_eq hg
    split at h
    · split at h
      · obtain ⟨j', hj', hset⟩ := pySet_eq h
        have hjj : j' = j := by
          rw [hj] at hj'
          exact (Option.some.inj hj').symm
        subst hjj
        exact ⟨j', _, _, hj, hget, hset⟩
      · simp at h
    · split at h
      · obtain ⟨j', hj', hset⟩ := pySet_eq h
        have hjj : j' = j := by
          rw [hj] at hj'
          exact (Option.some.inj hj').symm
        subst hjj
        exact ⟨j', _, _, hj, hget, hset⟩
      · simp at h
    · obtain ⟨j', hj', hset⟩ := pySet_eq h
      have hjj : j' = j := by
          rw [hj] at hj'
          exact (Option.some.inj hj').symm
      subst hjj
      exact ⟨j', _, _, hj, hget, hset⟩
  case _ => simp at h

theorem patchFieldCore_length {bs : List Val} {i : Int} {k : String} {v : Val} {bs' : List Val}
    (h : patchFieldCore bs i k v = some bs') : bs'.length = bs.length := by
  obtain ⟨j, bk, nv, _, _, hset⟩ := patchFieldCore_shape h
  simp [hset]

theorem patchFieldCore_get_ne {bs : List Val} {i : Int} {k : String} {v : Val} {bs' : List Val}
    (h : patchFieldCore bs i k v = some bs') {m : Nat}
    (hm : effIdx bs.length i ≠ some m) : bs'.get? m = bs.get? m := by
  obtain ⟨j, bk, nv, hj, _, hset⟩ := patchFieldCore_shape h
  rw [hset]
  exact List.get?_set_ne _ _ (fun hjm => hm (hjm ▸ hj))

/- ------------------------------------------------------------------
   The snapshot-threaded update fold of the source equals the
   books-level fold used by the specification-side merge
   ------------------------------------------------------------------ -/

theorem fieldStepS_bridge (ud : Dict) {s : Dict} {bs : List Val} (p : String × Val)
    (hb : dget s "books" = some (Val.vlist bs)) :
    fieldStepS ud s p =
      (fieldStepB ud bs p).map (fun bs' => dset s "books" (Val.vlist bs')) := by
  by_cases hidx : p.1 = "_idx"
  · simp only [fieldStepS, fieldStepB, if_pos hidx, Option.map]
    exact congrArg some (dset_eq_of_dget hb).symm
  · simp only [fieldStepS, fieldStepB, if_neg hidx, updateField, hb]
    split
    · rfl
    · split
      · rfl
      · split <;> rename_i heq <;> rw [heq] <;> rfl

theorem optFold_fieldStep_bridge (ud : Dict) (ps : List (String × Val)) :
    ∀ (s : Dict) (bs : List Val), dget s "books" = some (Val.vlist bs) →
      optFold (fieldStepS ud) s ps =
        (optFold (fieldStepB ud) bs ps).map (fun bs' => dset s "books" (Val.vlist bs')) := by
  induction ps with
  | nil =>
    intro s bs hb
    simp only [optFold_nil, Option.map]
    exact congrArg some (dset_eq_of_dget hb).symm
  | cons p rest ih =>
    intro s bs hb
    cases hstep : fieldStepB ud bs p with
    | none =>
      rw [optFold_cons_none _ (by rw [fieldStepS_bridge ud p hb, hstep]; rfl),
          optFold_cons_none _ hstep]
      rfl
    | some bs₂ =>
      rw [optFold_cons_some _ (by rw [fieldStepS_bridge ud p hb, hstep]; rfl),
          optFold_cons_some _ hstep,
          ih (dset s "books" (Val.vlist bs₂)) bs₂ (dget_dset_self _ _ _)]
      cases optFold (fieldStepB ud) bs₂ rest <;> simp [Option.map, dset_dset_self]

theorem applyUpdate_bridge {s : Dict} {bs : List Val} (u : Val)
    (hb : dget s "books" = some (Val.vlist bs)) :
    applyUpdate s u =
      (specPatchRecord bs u).map (fun bs' => dset s "books" (Val.vlist bs')) := by
  cases u with
  | vdict ud => exact optFold_fieldStep_bridge ud ud s bs hb
  | vnull => rfl
  | vbool b => rfl
  | vint n => rfl
  | vstr t => rfl
  | vlist l => rfl

theorem optFold_applyUpdate_bridge (us : List Val) :
    ∀ (s : Dict) (bs : List Val), dget s "books" = some (Val.vlist bs) →
      optFold applyUpdate s us =
        (optFold specPatchRecord bs us).map (fun bs' => dset s "books" (Val.vlist bs')) := by
  induction us with
  | nil =>
    intro s bs hb
    simp only [optFold_nil, Option.map]
    exact congrArg some (dset_eq_of_dget hb).symm
  | cons u rest ih =>
    intro s bs hb
    cases hstep : specPatchRecord bs u with
    | none =>
      rw [optFold_cons_none _ (by rw [applyUpdate_bridge u hb, hstep]; rfl),
          optFold_cons_none _ hstep]
      rfl
    | some bs₂ =>
      rw [optFold_cons_some _ (by rw [applyUpdate_bridge u hb, hstep]; rfl),
          optFold_cons_some _ hstep,
          ih (dset s "books" (Val.vlist bs₂)) bs₂ (dget_dset_self _ _ _)]
      cases optFold specPatchRecord bs₂ rest <;> simp [Option.map, dset_dset_self]

/- ------------------------------------------------------------------
   Decomposition of the merge and preservation facts
   ------------------------------------------------------------------ -/

theorem truthy_vdict_ne_nil {bdd : Dict} (h : bdd ≠ []) : truthy (Val.vdict bdd) = true := by
  cases bdd with
  | nil => exact absurd rfl h
  | cons p rest => rfl

/-- On a diff response (well-keyed `books_diff`, snapshot with a books list),
the merge is the append followed by the overwrite followed by the update
fold. -/
theorem receiveMerge_diff {s data bdd : Dict} {ins us bs : List Val}
    (hbd : dget data "books_diff" = some (Val.vdict bdd))
    (hins : dget bdd "insert" = some (Val.vlist ins))
    (hus : dget bdd "update" = some (Val.vlist us))
    (hsb : dget s "books" = some (Val.vlist bs)) :
    receiveMerge (some s) data =
      optFold applyUpdate (topOverwrite (dset s "books" (Val.vlist (bs ++ ins))) data) us := by
  have hne : bdd ≠ [] := by
    intro hn
    rw [hn] at hins
    simp [dget] at hins
  simp only [receiveMerge, hbd, truthy_vdict_ne_nil hne, if_true, hins, hsb, hus]

theorem updateField_dget_ne {s : Dict} {iv : Option Val} {key : String} {value : Val} {s' : Dict}
    (h : updateField s iv key value = some s') {k : String} (hk : k ≠ "books") :
    dget s' k = dget s k := by
  unfold updateField at h
  split at h
  · simp at h
  · split at h
    · simp at h
    · split at h
      · split at h
        · rw [← Option.some.inj h, dget_dset_ne _ _ (Ne.symm hk)]
        · simp at h
      · simp at h

theorem optFold_fieldStepS_dget_ne (ud : Dict) (ps : List (String × Val)) :
    ∀ {s s' : Dict}, optFold (fieldStepS ud) s ps = some s' →
      ∀ {k : String}, k ≠ "books" → dget s' k = dget s k := by
  induction ps with
  | nil =>
    intro s s' h k hk
    rw [← Option.some.inj h]
  | cons p rest ih =>
    intro s s' h k hk
    cases hstep : fieldStepS ud s p with
    | none => rw [optFold_cons_none _ hstep] at h; simp at h
    | some s₂ =>
      rw [optFold_cons_some _ hstep] at h
      have h1 : dget s₂ k = dget s k := by
        unfold fieldStepS at hstep
        split at hstep
        · rw [← Option.some.inj hstep]
        · exact updateField_dget_ne hstep hk
      rw [ih h hk, h1]

theorem applyUpdate_dget_ne {s s' : Dict} {u : Val}
    (h : applyUpdate s u = some s') {k : String} (hk : k ≠ "books") :
    dget s' k = dget s k := by
  cases u with
  | vdict ud => exact optFold_fieldStepS_dget_ne ud ud h hk
  | vnull => simp [applyUpdate] at h
  | vbool b => simp [applyUpdate] at h
  | vint n => simp [applyUpdate] at h
  | vstr t => simp [applyUpdate] at h
  | vlist l => simp [applyUpdate] at h

theorem optFold_applyUpdate_dget_ne (us : List Val) :
    ∀ {s s' : Dict}, optFold applyUpdate s us = some s' →
      ∀ {k : String}, k ≠ "books" → dget s' k = dget s k := by
  induction us with
  | nil =>
    intro s s' h k hk
    rw [← Option.some.inj h]
  | cons u rest ih =>
    intro s s' h k hk
    cases hstep : applyUpdate s u with
    | none => rw [optFold_cons_none _ hstep] at h; simp at h
    | some s₂ =>
      rw [optFold_cons_some _ hstep] at h
      rw [ih h hk, applyUpdate_dget_ne hstep hk]

theorem optFold_fieldStepB_preserve (ud : Dict) (ps : List (String × Val)) :
    ∀ {cur bs' : List Val}, optFold (fieldStepB ud) cur ps = some bs' →
      bs'.length = cur.length ∧
      ∀ m : Nat,
        (∀ iv i, dget ud "_idx" = some iv → toIndex iv = some i →
          effIdx cur.length i ≠ some m) →
        bs'.get? m = cur.get? m := by
  induction ps with
  | nil =>
    intro cur bs' h
    rw [← Option.some.inj h]
    exact ⟨rfl, fun _ _ => rfl⟩
  | cons p rest ih =>
    intro cur bs' h
    cases hstep : fieldStepB ud cur p with
    | none => rw [optFold_cons_none _ hstep] at h; simp at h
    | some cur₂ =>
      rw [optFold_cons_some _ hstep] at h
      obtain ⟨ihlen, ihget⟩ := ih h
      unfold fieldStepB at hstep
      by_cases hidx : p.1 = "_idx"
      · rw [if_pos hidx] at hstep
        rw [← Option.some.inj hstep] at ihlen ihget
        exact ⟨ihlen, ihget⟩
      · rw [if_neg hidx] at hstep
        split at hstep
        · simp at hstep
        · rename_i iv heqiv
          split at hstep
          · simp at hstep
          · rename_i i heqti
            have hlen2 := patchFieldCore_length hstep
            refine ⟨by rw [ihlen, hlen2], fun m hm => ?_⟩
            have hm2 : ∀ iv' i', dget ud "_idx" = some iv' → toIndex iv' = some i' →
                effIdx cur₂.length i' ≠ some m := by
              intro iv' i' hiv' hti'
              rw [hlen2]
              exact hm iv' i' hiv' hti'
            rw [ihget m hm2, patchFieldCore_get_ne hstep (hm iv i heqiv heqti)]

theorem specPatchRecord_preserve {cur bs' : List Val} {u : Val}
    (h : specPatchRecord cur u = some bs') :
    bs'.length = cur.length ∧
    ∀ m : Nat, targets cur.length m u = false → bs'.get? m = cur.get? m := by
  cases u with
  | vdict ud =>
    obtain ⟨hlen, hget⟩ := optFold_fieldStepB_preserve ud ud h
    refine ⟨hlen, fun m hm => hget m ?_⟩
    intro iv i hiv hti heff
    simp [targets, hiv, hti, heff] at hm
  | vnull => simp [specPatchRecord] at h
  | vbool b => simp [specPatchRecord] at h
  | vint n => simp [specPatchRecord] at h
  | vstr t => simp [specPatchRecord] at h
  | vlist l => simp [specPatchRecord] at h

theorem optFold_specPatchRecord_preserve (us : List Val) :
    ∀ {cur bs' : List Val}, optFold specPatchRecord cur us = some bs' →
      bs'.length = cur.length ∧
      ∀ m : Nat, (∀ u ∈ us, targets cur.length m u = false) → bs'.get? m = cur.get? m := by
  induction us with
  | nil =>
    intro cur bs' h
    rw [← Option.some.inj h]
    exact ⟨rfl, fun _ _ => rfl⟩
  | cons u rest ih =>
    intro cur bs' h
    cases hstep : specPatchRecord cur u with
    | none => rw [optFold_cons_none _ hstep] at h; simp at h
    | some cur₂ =>
      rw [optFold_cons_some _ hstep] at h
      obtain ⟨hlen2, hget2⟩ := specPatchRecord_preserve hstep
      obtain ⟨ihlen, ihget⟩ := ih h
      refine ⟨by rw [ihlen, hlen2], fun m hm => ?_⟩
      have h2 : bs'.get? m = cur₂.get? m := by
        refine ihget m (fun u' hu' => ?_)
        rw [hlen2]
        exact hm u' (List.mem_cons_of_mem _ hu')
      rw [h2, hget2 m (hm u (List.mem_cons_self _ _))]

/- ------------------------------------------------------------------
   Success of the update fold under the strengthened precondition
   ------------------------------------------------------------------ -/

theorem patchFieldOK_some {bs : List Val} {i : Int} {k : String} {v : Val}
    (h : patchFieldOK bs i k v = true) : ∃ bs', patchFieldCore bs i k v = some bs' := by
  cases hg : pyGet bs i with
  | none => simp [patchFieldOK, hg] at h
  | some tv =>
    cases tv with
    | vdict bk =>
      obtain ⟨j, hj, _⟩ := pyGet_eq hg
      cases v with
      | vlist vs =>
        simp only [patchFieldOK, hg] at h
        cases hdg : dget bk k with
        | none => rw [hdg] at h; simp at h
        | some fv =>
          cases fv with
          | vlist old =>
            refine ⟨bs.set j (Val.vdict (dset bk k (Val.vlist (old ++ vs)))), ?_⟩
            rw [show patchFieldCore bs i k (Val.vlist vs) =
                  pySet bs i (Val.vdict (dset bk k (Val.vlist (old ++ vs)))) by
                simp [patchFieldCore, hg, hdg]]
            exact pySet_of_effIdx _ hj
          | vnull => rw [hdg] at h; simp at h
          | vbool b => rw [hdg] at h; simp at h
          | vint n => rw [hdg] at h; simp at h
          | vstr t => rw [hdg] at h; simp at h
          | vdict d => rw [hdg] at h; simp at h
      | vdict kvs =>
        simp only [patchFieldOK, hg] at h
        cases hdg : dget bk k with
        | none => rw [hdg] at h; simp at h
        | some fv =>
          cases fv with
          | vdict old =>
            refine ⟨bs.set j (Val.vdict (dset bk k
              (Val.vdict (kvs.foldl (fun acc p => dset acc p.1 p.2) old)))), ?_⟩
            rw [show patchFieldCore bs i k (Val.vdict kvs) =
                  pySet bs i (Val.vdict (dset bk k
                    (Val.vdict (kvs.foldl (fun acc p => dset acc p.1 p.2) old)))) by
                simp [patchFieldCore, hg, hdg]]
            exact pySet_of_effIdx _ hj
          | vnull => rw [hdg] at h; simp at h
          | vbool b => rw [hdg] at h; simp at h
          | vint n => rw [hdg] at h; simp at h
          | vstr t => rw [hdg] at h; simp at h
          | vlist l => rw [hdg] at h; simp at h
      | vnull =>
        refine ⟨bs.set j (Val.vdict (dset bk k Val.vnull)), ?_⟩
        rw [show patchFieldCore bs i k Val.vnull =
              pySet bs i (Val.vdict (dset bk k Val.vnull)) by simp [patchFieldCore, hg]]
        exact pySet_of_effIdx _ hj
      | vbool b =>
        refine ⟨bs.set j (Val.vdict (dset bk k (Val.vbool b))), ?_⟩
        rw [show patchFieldCore bs i k (Val.vbool b) =
              pySet bs i (Val.vdict (dset bk k (Val.vbool b))) by simp [patchFieldCore, hg]]
        exact pySet_of_effIdx _ hj
      | vint n =>
        refine ⟨bs.set j (Val.vdict (dset bk k (Val.vint n))), ?_⟩
        rw [show patchFieldCore bs i k (Val.vint n) =
              pySet bs i (Val.vdict (dset bk k (Val.vint n))) by simp [patchFieldCore, hg]]
        exact pySet_of_effIdx _ hj
      | vstr t =>
        refine ⟨bs.set j (Val.vdict (dset bk k (Val.vstr t))), ?_⟩
        rw [show patchFieldCore bs i k (Val.vstr t) =
              pySet bs i (Val.vdict (dset bk k (Val.vstr t))) by simp [patchFieldCore, hg]]
        exact pySet_of_effIdx _ hj
    | vnull => simp [patchFieldOK, hg] at h
    | vbool b => simp [patchFieldOK, hg] at h
    | vint n => simp [patchFieldOK, hg] at h
    | vstr t => simp [patchFieldOK, hg] at h
    | vlist l => simp [patchFieldOK, hg] at h

theorem patchFieldCore_preserves_OK {bs bs' : List Val} {i : Int} {k k' : String} {v v' : Val}
    (h : patchFieldCore bs i k v = some bs') (hkk : k' ≠ k)
    (hok : patchFieldOK bs i k' v' = true) : patchFieldOK bs' i k' v' = true := by
  obtain ⟨j, bk, nv, hj, hget, hset⟩ := patchFieldCore_shape h
  have hg : pyGet bs i = some (Val.vdict bk) := by
    unfold pyGet
    rw [hj]
    exact hget
  have hj' : effIdx bs'.length i = some j := by
    rw [hset]
    simpa using hj
  have hg' : pyGet bs' i = some (Val.vdict (dset bk k nv)) := by
    unfold pyGet
    rw [hj', hset]
    exact List.get?_set_eq_of_lt _ (effIdx_lt hj)
  have hdd : dget (dset bk k nv) k' = dget bk k' := dget_dset_ne bk nv (Ne.symm hkk)
  cases v' with
  | vlist vs =>
    simp only [patchFieldOK, hg] at hok
    simp only [patchFieldOK, hg', hdd]
    exact hok
  | vdict kvs =>
    simp only [patchFieldOK, hg] at hok
    simp only [patchFieldOK, hg', hdd]
    exact hok
  | vnull => simp [patchFieldOK, hg']
  | vbool b => simp [patchFieldOK, hg']
  | vint n => simp [patchFieldOK, hg']
  | vstr t => simp [patchFieldOK, hg']

theorem optFold_fieldStepB_some (ud : Dict) {iv : Val} {i : Int}
    (hiv : dget ud "_idx" = some iv) (hti : toIndex iv = some i) :
    ∀ (ps : List (String × Val)) (cur : List Val),
      (ps.map Prod.fst).Nodup →
      (∀ p ∈ ps, p.1 ≠ "_idx" → patchFieldOK cur i p.1 p.2 = true) →
      ∃ cur', optFold (fieldStepB ud) cur ps = some cur' := by
  intro ps
  induction ps with
  | nil => intro cur _ _; exact ⟨cur, rfl⟩
  | cons p rest ih =>
    intro cur hnd hok
    simp only [List.map_cons, List.nodup_cons] at hnd
    by_cases hidx : p.1 = "_idx"
    · have hstep : fieldStepB ud cur p = some cur := by simp [fieldStepB, hidx]
      obtain ⟨cur', hrest⟩ :=
        ih cur hnd.2 (fun q hq hqi => hok q (List.mem_cons_of_mem _ hq) hqi)
      exact ⟨cur', by rw [optFold_cons_some _ hstep]; exact hrest⟩
    · have hokp : patchFieldOK cur i p.1 p.2 = true :=
        hok p (List.mem_cons_self _ _) hidx
      obtain ⟨cur₂, hpc⟩ := patchFieldOK_some hokp
      have hstep : fieldStepB ud cur p = some cur₂ := by
        simp [fieldStepB, hidx, hiv, hti, hpc]
      have hok' : ∀ q ∈ rest, q.1 ≠ "_idx" → patchFieldOK cur₂ i q.1 q.2 = true := by
        intro q hq hqi
        have hqp : q.1 ≠ p.1 := by
          intro hq1
          exact hnd.1 (hq1 ▸ List.mem_map_of_mem Prod.fst hq)
        exact patchFieldCore_preserves_OK hpc hqp (hok q (List.mem_cons_of_mem _ hq) hqi)
      obtain ⟨cur', hrest⟩ := ih cur₂ hnd.2 hok'
      exact ⟨cur', by rw [optFold_cons_some _ hstep]; exact hrest⟩

theorem recordWF_some {cur : List Val} {u : Val} (h : recordWF cur u) :
    ∃ cur', specPatchRecord cur u = some cur' := by
  cases u with
  | vdict ud =>
    obtain ⟨hnd, iv, i, j, hiv, hti, heff, hok⟩ := h
    exact optFold_fieldStepB_some ud hiv hti ud cur hnd hok
  | vnull => exact h.elim
  | vbool b => exact h.elim
  | vint n => exact h.elim
  | vstr t => exact h.elim
  | vlist l => exact h.elim

theorem updsWF_some (us : List Val) :
    ∀ {cur : List Val}, updsWF cur us → ∃ bs', optFold specPatchRecord cur us = some bs' := by
  induction us with
  | nil => intro cur _; exact ⟨cur, rfl⟩
  | cons u rest ih =>
    intro cur h
    obtain ⟨hr, hrest⟩ := h
    obtain ⟨cur₂, h2⟩ := recordWF_some hr
    obtain ⟨bs', h3⟩ := ih (hrest cur₂ h2)
    exact ⟨bs', by rw [optFold_cons_some _ h2]; exact h3⟩

/- ------------------------------------------------------------------
   Query stripping lemmas
   ------------------------------------------------------------------ -/

theorem strip_fold (q : Dict) (ks : List String) :
    ∀ acc : Dict, ks.Nodup → (∀ k ∈ ks, ∀ p ∈ acc, p.1 ≠ k) →
      ks.foldl (fun tmp k =>
        match dget q k with
        | some v => if isEmptyStr v then tmp else dset tmp k v
        | none => tmp) acc
      = acc ++ ks.filterMap (fun k =>
        match dget q k with
        | some v => if isEmptyStr v then none else some (k, v)
        | none => none) := by
  induction ks with
  | nil => intro acc _ _; simp
  | cons k rest ih =>
    intro acc hnd hdisj
    simp only [List.nodup_cons] at hnd
    rw [List.foldl_cons, List.filterMap_cons]
    cases hq : dget q k with
    | none =>
      simp only [hq]
      exact ih acc hnd.2 (fun k' hk' => hdisj k' (List.mem_cons_of_mem _ hk'))
    | some v =>
      by_cases he : isEmptyStr v
      · simp only [hq, if_pos he]
        exact ih acc hnd.2 (fun k' hk' => hdisj k' (List.mem_cons_of_mem _ hk'))
      · simp only [hq, if_neg he]
        rw [dset_append_of_keys v (hdisj k (List.mem_cons_self _ _))]
        rw [ih (acc ++ [(k, v)]) hnd.2 ?_]
        · rw [List.append_assoc]
          rfl
        · intro k' hk' p hp
          rcases List.mem_append.mp hp with hp | hp
          · exact hdisj k' (List.mem_cons_of_mem _ hk') p hp
          · simp only [List.mem_singleton] at hp
            rw [hp]
            intro hkk
            apply hnd.1
            rw [← hkk] at hk'
            exact hk'

/- ------------------------------------------------------------------
   Tool loop lemmas
   ------------------------------------------------------------------ -/

theorem pollLoop_noReq (env : List HResp) :
    ∀ (uuid : Val) (da : Dict) (effs : List TEff) (res : ToolRes),
      pollLoop uuid da env = some (effs, res) → noReqAfterError effs = true := by
  induction env with
  | nil =>
    intro uuid da effs res h
    rw [pollLoop] at h
    split at h
    · simp at h
    · split at h
      · simp at h
      · split at h
        · simp only [Option.some.injEq, Prod.mk.injEq] at h
          rw [← h.1]
          rfl
        · simp at h
      · simp at h
  | cons r rest ih =>
    intro uuid da effs res h
    rw [pollLoop] at h
    split at h
    · simp at h
    · split at h
      · simp at h
      · split at h
        · simp only [Option.some.injEq, Prod.mk.injEq] at h
          rw [← h.1]
          rfl
        · simp at h
      · split at h
        · split at h
          · split at h
            · simp only [Option.some.injEq, Prod.mk.injEq] at h
              rename_i effs' res' heq
              rw [← h.1]
              simpa [noReqAfterError] using ih uuid _ effs' res' heq
            · simp at h
          · simp at h
        · simp only [Option.some.injEq, Prod.mk.injEq] at h
          rw [← h.1]
          rfl

theorem pollLoop_okBooks (env : List HResp) :
    ∀ (uuid : Val) (da : Dict) (effs : List TEff) (rets : List BookSummary),
      pollLoop uuid da env = some (effs, ToolRes.okBooks rets) →
      ∃ (d : Dict) (bsv : List Val),
        dget d "books" = some (Val.vlist bsv) ∧ mkRets bsv = some rets := by
  induction env with
  | nil =>
    intro uuid da effs rets h
    rw [pollLoop] at h
    split at h
    · simp at h
    · split at h
      · simp at h
      · split at h
        · rename_i rets' hfin
          simp only [Option.some.injEq, Prod.mk.injEq, ToolRes.okBooks.injEq] at h
          unfold toolFinish at hfin
          split at hfin
          · rename_i bsv hdg
            exact ⟨_, bsv, hdg, by rw [hfin, h.2]⟩
          · simp at hfin
        · simp at h
      · simp at h
  | cons r rest ih =>
    intro uuid da effs rets h
    rw [pollLoop] at h
    split at h
    · simp at h
    · split at h
      · simp at h
      · split at h
        · rename_i rets' hfin
          simp only [Option.some.injEq, Prod.mk.injEq, ToolRes.okBooks.injEq] at h
          unfold toolFinish at hfin
          split at hfin
          · rename_i bsv hdg
            exact ⟨_, bsv, hdg, by rw [hfin, h.2]⟩
          · simp at hfin
        · simp at h
      · split at h
        · split at h
          · split at h
            · rename_i effs' res' heq
              simp only [Option.some.injEq, Prod.mk.injEq] at h
              rw [h.2] at heq
              exact ih uuid _ effs' rets heq
            · simp at h
          · simp at h
        · simp only [Option.some.injEq, Prod.mk.injEq] at h
          exact absurd h.2 (by intro hr; cases hr)

theorem mkRets_eq_mapOpt (bs : List Val) :
    ∀ {rets : List BookSummary}, mkRets bs = some rets →
      mapOpt buildSummary (bs.filter (fun b => holdingsMatch b == some true)) = some rets := by
  induction bs with
  | nil =>
    intro rets h
    rw [← Option.some.inj h]
    rfl
  | cons b rest ih =>
    intro rets h
    rw [mkRets] at h
    split at h
    · simp at h
    · rename_i m hm
      by_cases hmt : m = true
      · subst hmt
        rw [if_pos rfl] at h
        split at h
        · simp at h
        · rename_i s hbs
          split at h
          · simp at h
          · rename_i tail htail
            rw [← Option.some.inj h]
            rw [List.filter_cons_of_pos (by simp [hm])]
            rw [mapOpt, hbs, ih htail]
      · rw [if_neg hmt] at h
        rw [List.filter_cons_of_neg (by simp [hm, hmt])]
        exact ih h

theorem mapOpt_mem {α β : Type} (f : α → Option β) (l : List α) :
    ∀ {r : List β}, mapOpt f l = some r → ∀ y ∈ r, ∃ x ∈ l, f x = some y := by
  induction l with
  | nil =>
    intro r h y hy
    rw [← Option.some.inj h] at hy
    simp at hy
  | cons a as ih =>
    intro r h y hy
    rw [mapOpt] at h
    split at h
    · simp at h
    · rename_i b hb
      split at h
      · simp at h
      · rename_i bs hbs
        rw [← Option.some.inj h] at hy
        rcases List.mem_cons.mp hy with hy | hy
        · exact ⟨a, List.mem_cons_self _ _, hy ▸ hb⟩
        · obtain ⟨x, hx, hfx⟩ := ih hbs y hy
          exact ⟨x, List.mem_cons_of_mem _ hx, hfx⟩

/- ------------------------------------------------------------------
   Claim theorems
   ------------------------------------------------------------------ -/

/-- Claim C2: after `kill()` sets the cancellation flag, every scheduled
continuation (search, polling, receive) checks the flag first and becomes a
no-op: over every sequence of subsequent session steps no network request is
issued, nothing is scheduled, the state never changes, and the snapshot
callback is never invoked again. -/
theorem C2_cancel_noop (st : ApiState) (ins : List SessIn) (data : Dict) :
    sessRun (kill st) ins = (kill st, []) ∧
    receiveStep (kill st) data = ⟨kill st, [], false⟩ := by
  constructor
  · induction ins with
    | nil => rfl
    | cons i rest ih =>
      have hstep : sessStep (kill st) i = (kill st, []) := by
        cases i with
        | sSearch q net => simp [sessStep, searchStep, kill]
        | sPoll net => simp [sessStep, pollingStep, kill]
      simp [sessRun, hstep, ih]
  · simp [receiveStep, kill]

/-- Claim C3: a transport or status failure of the initial search or of any
poll sleeps a fixed 1 second (1000 ms) and retransmits the same request —
the identical stripped query for search, the uuid/version of the unchanged
current snapshot for polling.  The retries are unbounded: any number n of
consecutive failures leaves the state unchanged and emits n identical
request/sleep/respawn rounds, and the failure is never surfaced to the
caller's callback. -/
theorem C3_retry_policy (st : ApiState) (q ps : Dict)
    (hk : st.killed = false) (hp : pollingParams st = some ps) :
    searchStep st q SearchNet.fail =
      (st, [Eff.request "search" (strip_query q), Eff.sleepEv 1000,
            Eff.createTask (STask.searchT q)]) ∧
    pollingStep st PollNet.fail =
      (st, [Eff.request "polling" ps, Eff.sleepEv 1000, Eff.createTask STask.pollingT]) ∧
    (∀ n : Nat,
      sessRun st (List.replicate n (SessIn.sSearch q SearchNet.fail)) =
        (st, (List.replicate n [Eff.request "search" (strip_query q), Eff.sleepEv 1000,
              Eff.createTask (STask.searchT q)]).flatten)) ∧
    (∀ n : Nat,
      sessRun st (List.replicate n (SessIn.sPoll PollNet.fail)) =
        (st, (List.replicate n [Eff.request "polling" ps, Eff.sleepEv 1000,
              Eff.createTask STask.pollingT]).flatten)) ∧
    (∀ (n : Nat) (s : Dict),
      Eff.callbackEv s ∉ (sessRun st (List.replicate n (SessIn.sSearch q SearchNet.fail))).2) := by
  have h1 : searchStep st q SearchNet.fail =
      (st, [Eff.request "search" (strip_query q), Eff.sleepEv 1000,
            Eff.createTask (STask.searchT q)]) := by
    simp [searchStep, hk]
  have h2 : pollingStep st PollNet.fail =
      (st, [Eff.request "polling" ps, Eff.sleepEv 1000, Eff.createTask STask.pollingT]) := by
    simp [pollingStep, hk, hp]
  have h3 : ∀ n : Nat,
      sessRun st (List.replicate n (SessIn.sSearch q SearchNet.fail)) =
        (st, (List.replicate n [Eff.request "search" (strip_query q), Eff.sleepEv 1000,
              Eff.createTask (STask.searchT q)]).flatten) := by
    intro n
    induction n with
    | zero => rfl
    | succ m ih => simp [List.replicate_succ, sessRun, sessStep, h1, ih]
  have h4 : ∀ n : Nat,
      sessRun st (List.replicate n (SessIn.sPoll PollNet.fail)) =
        (st, (List.replicate n [Eff.request "polling" ps, Eff.sleepEv 1000,
              Eff.createTask STask.pollingT]).flatten) := by
    intro n
    induction n with
    | zero => rfl
    | succ m ih => simp [List.replicate_succ, sessRun, sessStep, h2, ih]
  refine ⟨h1, h2, h3, h4, fun n s hmem => ?_⟩
  rw [h3 n] at hmem
  obtain ⟨l', hl', hx⟩ := List.mem_flatten.mp hmem
  rw [List.eq_of_mem_replicate hl'] at hx
  simp at hx

/-- Witness for C3 at a concrete session state and the empty query. -/
theorem C3_retry_policy_witness :
    searchStep exStateC3 [] SearchNet.fail =
      (exStateC3, [Eff.request "search" [], Eff.sleepEv 1000,
        Eff.createTask (STask.searchT [])]) :=
  (C3_retry_policy exStateC3 [] exParamsC3 rfl rfl).1

/-- Claim C5: after each successful merge and delivery with the response's
running flag true (and hence the new snapshot's running flag true), the next
poll is scheduled after 20 ms when the version is 1 and the merged books
sequence is empty, and after 500 ms otherwise; when running is false nothing
further is scheduled and the session is complete. -/
theorem C5_poll_schedule (st : ApiState) (data s' : Dict) (v : Int) (bs : List Val)
    (hk : st.killed = false)
    (hm : receiveMerge st.data data = some s')
    (hv : dget data "version" = some (Val.vint v))
    (hb : dget s' "books" = some (Val.vlist bs)) :
    (dget data "running" = some (Val.vbool true) → v = 1 → bs = [] →
      receiveStep st data =
        ⟨⟨false, some s'⟩, [Eff.callbackEv s', Eff.sleepEv 20, Eff.createTask STask.pollingT],
         false⟩) ∧
    (dget data "running" = some (Val.vbool true) → v = 1 → bs ≠ [] →
      receiveStep st data =
        ⟨⟨false, some s'⟩, [Eff.callbackEv s', Eff.sleepEv 500, Eff.createTask STask.pollingT],
         false⟩) ∧
    (dget data "running" = some (Val.vbool true) → v ≠ 1 →
      receiveStep st data =
        ⟨⟨false, some s'⟩, [Eff.callbackEv s', Eff.sleepEv 500, Eff.createTask STask.pollingT],
         false⟩) ∧
    (dget data "running" = some (Val.vbool false) →
      receiveStep st data = ⟨⟨false, some s'⟩, [Eff.callbackEv s'], false⟩) := by
  refine ⟨fun hr h1 hbs => ?_, fun hr h1 hbs => ?_, fun hr h1 => ?_, fun hr => ?_⟩
  · subst h1
    subst hbs
    simp [receiveStep, hk, hm, schedule, hr, hv, hb, pyEq1, pyLen]
  · subst h1
    have hlen : (bs.length == 0) = false := by
      cases bs with
      | nil => exact absurd rfl hbs
      | cons b rest => rfl
    simp [receiveStep, hk, hm, schedule, hr, hv, hb, pyEq1, pyLen, hlen]
  · have hne : (v == 1) = false := beq_eq_false_iff_ne.mpr h1
    simp [receiveStep, hk, hm, schedule, hr, hv, pyEq1, hne]
  · simp [receiveStep, hk, hm, schedule, hr]

/-- Witness for C5 on the first response of a fresh session: running, version
1, no books yet — the 20 ms warm-up path. -/
theorem C5_poll_schedule_witness :
    receiveStep ⟨false, none⟩ exDataC5 =
      ⟨⟨false, some exDataC5⟩, [Eff.callbackEv exDataC5, Eff.sleepEv 20,
        Eff.createTask STask.pollingT], false⟩ :=
  (C5_poll_schedule ⟨false, none⟩ exDataC5 exDataC5 1 [] rfl rfl rfl rfl).1 rfl rfl rfl

/-- Claim C8: `strip_query` returns exactly the fields of the fixed field
set whose value is present and not empty (region included), in field order,
omitting every empty-valued or absent field — it coincides with the
specification's description `stripSpec` on every query — and in particular
`strip({title:"", author:"x"}) = {author:"x"}`. -/
theorem C8_strip_query :
    (∀ q : Dict, strip_query q = stripSpec q) ∧
    strip_query exQueryC8 = [("author", Val.vstr "x")] := by
  constructor
  · intro q
    unfold strip_query stripSpec
    rw [strip_fold q FIELDS [] (by decide) (by simp)]
    rfl
  · rfl

/-- Claim C1: on every snapshot and every response that is well-typed for
the `UnitradResult` shape (`books_diff`, when present, is null or a
non-empty record; `books`, when present in the response, is a sequence;
response keys are unique), the source merge step equals the specification's
merge `mergeSpec` — (1) append `books_diff.insert` to the books in order,
(2) overwrite every top-level snapshot field named by a response key other
than `books_diff`, (3) apply each update patch: extend on sequences,
shallow-merge on mappings, overwrite otherwise.  A response with no diff
replaces the snapshot wholesale, and the spec's concrete example holds:
books `[{a:1, list:[1]}]` with update `[{_idx:0, list:[2], a:5}]` yields
`books[0] = {a:5, list:[1,2]}`. -/
theorem C1_merge_refines_spec :
    (∀ snap data : Dict,
      (∀ bd, dget data "books_diff" = some bd →
        bd = Val.vnull ∨ ∃ bdd, bd = Val.vdict bdd ∧ bdd ≠ []) →
      (∀ bv, dget data "books" = some bv → ∃ l, bv = Val.vlist l) →
      (data.map Prod.fst).Nodup →
      receiveMerge (some snap) data = mergeSpec snap data) ∧
    (∀ snap data : Dict, dget data "books_diff" = none →
      receiveMerge (some snap) data = some data) ∧
    receiveMerge (some exSnapC1) exDataC1 =
      some [("uuid", Val.vstr "u"), ("version", Val.vint 2), ("running", Val.vbool true),
            ("books", Val.vlist [Val.vdict
              [("a", Val.vint 5), ("list", Val.vlist [Val.vint 1, Val.vint 2])]])] := by
  refine ⟨?_, fun snap data h => by simp [receiveMerge, h], rfl⟩
  intro snap data h1 h2 hnd
  cases hbd : dget data "books_diff" with
  | none => simp [receiveMerge, mergeSpec, hbd]
  | some bd =>
    rcases h1 bd hbd with rfl | ⟨bdd, rfl, hne⟩
    · simp [receiveMerge, mergeSpec, hbd, truthy]
    · simp only [receiveMerge, mergeSpec, hbd, truthy_vdict_ne_nil hne, if_true]
      cases hins : dget bdd "insert" with
      | none => simp [hins]
      | some insv =>
        cases insv with
        | vlist ins =>
          cases hsb : dget snap "books" with
          | none => simp [hins, hsb]
          | some sbv =>
            cases sbv with
            | vlist bs0 =>
              have hcur : ∃ cur, dget (topOverwrite (dset snap "books"
                  (Val.vlist (bs0 ++ ins))) data) "books" = some (Val.vlist cur) := by
                cases hdb : dget data "books" with
                | none =>
                  refine ⟨bs0 ++ ins, ?_⟩
                  rw [topOverwrite_dget_of_keys (keys_of_dget_eq_none hdb),
                      dget_dset_self]
                | some bv =>
                  obtain ⟨l, rfl⟩ := h2 bv hdb
                  exact ⟨l, topOverwrite_dget_of_mem hnd hdb (by decide) _⟩
              obtain ⟨cur, hcur⟩ := hcur
              cases hus : dget bdd "update" with
              | none => simp [hins, hsb, hus, hcur]
              | some usv =>
                cases usv with
                | vlist us =>
                  simp only [hins, hsb, hus, hcur]
                  rw [optFold_applyUpdate_bridge us _ cur hcur]
                  cases optFold specPatchRecord cur us <;> rfl
                | vnull => simp [hins, hsb, hus, hcur]
                | vbool b => simp [hins, hsb, hus, hcur]
                | vint n => simp [hins, hsb, hus, hcur]
                | vstr t => simp [hins, hsb, hus, hcur]
                | vdict d => simp [hins, hsb, hus, hcur]
            | vnull => simp [hins, hsb]
            | vbool b => simp [hins, hsb]
            | vint n => simp [hins, hsb]
            | vstr t => simp [hins, hsb]
            | vdict d => simp [hins, hsb]
        | vnull => simp [hins]
        | vbool b => simp [hins]
        | vint n => simp [hins]
        | vstr t => simp [hins]
        | vdict d => simp [hins]

/-- Witness for C1: the refinement applied to the spec's concrete
merge-correctness example. -/
theorem C1_merge_refines_spec_witness :
    receiveMerge (some exSnapC1) exDataC1 = mergeSpec exSnapC1 exDataC1 :=
  C1_merge_refines_spec.1 exSnapC1 exDataC1
    (fun bd hbd => Or.inr ⟨_, (Option.some.inj hbd).symm, by simp⟩)
    (fun bv hbv => Option.noConfusion (show (none : Option Val) = some bv from hbv))
    (by decide)

/-- Counterexample to claim C4 as stated: the merge step accepts any
response without validating version monotonicity.  In this two-response
session the delivered snapshots (the two `callbackEv` effects) carry
version 5 and then version 3 — the version of the later delivered snapshot
is smaller. -/
theorem C4_version_decrease_cex :
    sessRun ⟨false, none⟩
      [SessIn.sSearch [] (SearchNet.ok exDataV5), SessIn.sPoll (PollNet.ok exDataV3)] =
      (⟨false, some exDataV3⟩,
       [Eff.request "search" [], Eff.callbackEv exDataV5, Eff.sleepEv 500,
        Eff.createTask STask.pollingT,
        Eff.request "polling" [("uuid", Val.vstr "u"), ("version", Val.vint 5),
          ("diff", Val.vint 1), ("timeout", Val.vint 10)],
        Eff.callbackEv exDataV3, Eff.sleepEv 500, Eff.createTask STask.pollingT]) ∧
    dget exDataV5 "version" = some (Val.vint 5) ∧
    dget exDataV3 "version" = some (Val.vint 3) :=
  ⟨rfl, rfl, rfl⟩

/-- Amended claim C4: the merge step applies no monotonicity check; instead
the delivered snapshot's version always equals the version field of the
accepted response (for responses with unique keys), so delivered versions
are non-decreasing exactly when the versions of the accepted responses are. -/
theorem C4_version_tracks_response (snap : Option Dict) (data s' : Dict) (vv : Val)
    (hnd : (data.map Prod.fst).Nodup)
    (hv : dget data "version" = some vv)
    (hm : receiveMerge snap data = some s') :
    dget s' "version" = some vv := by
  cases hbd : dget data "books_diff" with
  | none =>
    simp only [receiveMerge, hbd] at hm
    rw [← Option.some.inj hm]
    exact hv
  | some bd =>
    by_cases ht : truthy bd = true
    · cases snap with
      | none => simp [receiveMerge, hbd, ht] at hm
      | some s =>
        cases bd with
        | vdict bdd =>
          cases hins : dget bdd "insert" with
          | none => simp [receiveMerge, hbd, ht, hins] at hm
          | some insv =>
            cases insv with
            | vlist ins =>
              cases hsb : dget s "books" with
              | none => simp [receiveMerge, hbd, ht, hins, hsb] at hm
              | some sbv =>
                cases sbv with
                | vlist bs0 =>
                  cases hus : dget bdd "update" with
                  | none => simp [receiveMerge, hbd, ht, hins, hsb, hus] at hm
                  | some usv =>
                    cases usv with
                    | vlist us =>
                      simp only [receiveMerge, hbd, ht, if_true, hins, hsb, hus] at hm
                      rw [optFold_applyUpdate_dget_ne us hm (by decide),
                          topOverwrite_dget_of_mem hnd hv (by decide)]
                    | vnull => simp [receiveMerge, hbd, ht, hins, hsb, hus] at hm
                    | vbool b => simp [receiveMerge, hbd, ht, hins, hsb, hus] at hm
                    | vint n => simp [receiveMerge, hbd, ht, hins, hsb, hus] at hm
                    | vstr t => simp [receiveMerge, hbd, ht, hins, hsb, hus] at hm
                    | vdict d => simp [receiveMerge, hbd, ht, hins, hsb, hus] at hm
                | vnull => simp [receiveMerge, hbd, ht, hins, hsb] at hm
                | vbool b => simp [receiveMerge, hbd, ht, hins, hsb] at hm
                | vint n => simp [receiveMerge, hbd, ht, hins, hsb] at hm
                | vstr t => simp [receiveMerge, hbd, ht, hins, hsb] at hm
                | vdict d => simp [receiveMerge, hbd, ht, hins, hsb] at hm
            | vnull => simp [receiveMerge, hbd, ht, hins] at hm
            | vbool b => simp [receiveMerge, hbd, ht, hins] at hm
            | vint n => simp [receiveMerge, hbd, ht, hins] at hm
            | vstr t => simp [receiveMerge, hbd, ht, hins] at hm
            | vdict d => simp [receiveMerge, hbd, ht, hins] at hm
        | vnull => simp [truthy] at ht
        | vbool b => simp [receiveMerge, hbd, ht] at hm
        | vint n => simp [receiveMerge, hbd, ht] at hm
        | vstr t => simp [receiveMerge, hbd, ht] at hm
        | vlist l => simp [receiveMerge, hbd, ht] at hm
    · have ht' : truthy bd = false := by
        cases htv : truthy bd
        · rfl
        · exact absurd htv ht
      simp only [receiveMerge, hbd, ht', Bool.false_eq_true, if_false] at hm
      rw [← Option.some.inj hm]
      exact hv

/-- Witness for the amended C4 at a concrete accepted response. -/
theorem C4_version_tracks_response_witness :
    dget [("version", Val.vint 2)] "version" = some (Val.vint 2) :=
  C4_version_tracks_response none [("version", Val.vint 2)] [("version", Val.vint 2)]
    (Val.vint 2) (by decide) rfl rfl

/-- Counterexample to claim C6 as stated: a diff merge (truthy `books_diff`
with empty insert and update lists) whose response also carries a top-level
`books` key removes the existing entry — the snapshot had one book and the
merged snapshot has none, because every response key other than `books_diff`
(including `books`) overwrites the snapshot field. -/
theorem C6_books_clobber_cex :
    receiveMerge (some exSnapC6) exDataC6 =
      some [("uuid", Val.vstr "u"), ("version", Val.vint 2), ("running", Val.vbool false),
            ("books", Val.vlist [])] ∧
    dget exSnapC6 "books" = some (Val.vlist [Val.vdict [("a", Val.vint 1)]]) ∧
    dget exDataC6 "books_diff" =
      some (Val.vdict [("insert", Val.vlist []), ("update", Val.vlist [])]) :=
  ⟨rfl, rfl, rfl⟩

/-- Amended claim C6: for every diff merge whose response carries no
top-level `books` key, the books sequence only grows by appending the insert
elements and is patched in place: the merged length is the old length plus
the number of inserts, and every position not addressed by any update record
— in particular every existing entry no update targets — keeps its value,
so nothing is removed or reordered. -/
theorem C6_diff_growth (snap data bdd : Dict) (ins us bs : List Val) (s' : Dict)
    (hbd : dget data "books_diff" = some (Val.vdict bdd))
    (hins : dget bdd "insert" = some (Val.vlist ins))
    (hus : dget bdd "update" = some (Val.vlist us))
    (hsb : dget snap "books" = some (Val.vlist bs))
    (hnob : dget data "books" = none)
    (hm : receiveMerge (some snap) data = some s') :
    ∃ bs' : List Val,
      dget s' "books" = some (Val.vlist bs') ∧
      bs'.length = bs.length + ins.length ∧
      ∀ m : Nat, (∀ u ∈ us, targets (bs.length + ins.length) m u = false) →
        bs'.get? m = (bs ++ ins).get? m := by
  rw [receiveMerge_diff hbd hins hus hsb] at hm
  have hs2 : dget (topOverwrite (dset snap "books" (Val.vlist (bs ++ ins))) data) "books"
      = some (Val.vlist (bs ++ ins)) := by
    rw [topOverwrite_dget_of_keys (keys_of_dget_eq_none hnob), dget_dset_self]
  rw [optFold_applyUpdate_bridge us _ _ hs2] at hm
  cases hfold : optFold specPatchRecord (bs ++ ins) us with
  | none => rw [hfold] at hm; simp at hm
  | some bs' =>
    rw [hfold, Option.map_some'] at hm
    obtain ⟨hlen, hget⟩ := optFold_specPatchRecord_preserve us hfold
    refine ⟨bs', ?_, ?_, ?_⟩
    · rw [← Option.some.inj hm, dget_dset_self]
    · rw [hlen, List.length_append]
    · intro m hm2
      refine hget m (fun u hu => ?_)
      rw [List.length_append]
      exact hm2 u hu

/-- Witness for the amended C6: one insert appended behind the existing
entry, which is preserved. -/
theorem C6_diff_growth_witness :
    ∃ bs' : List Val,
      dget [("uuid", Val.vstr "u"), ("version", Val.vint 2), ("running", Val.vbool false),
            ("books", Val.vlist [Val.vdict [("a", Val.vint 1)], Val.vdict [("b", Val.vint 2)]])]
        "books" = some (Val.vlist bs') ∧
      bs'.length = 1 + 1 ∧
      ∀ m : Nat, (∀ u ∈ ([] : List Val), targets (1 + 1) m u = false) →
        bs'.get? m = ([Val.vdict [("a", Val.vint 1)]] ++ [Val.vdict [("b", Val.vint 2)]]).get? m :=
  C6_diff_growth exSnapC6 exDataC6w
    [("insert", Val.vlist [Val.vdict [("b", Val.vint 2)]]), ("update", Val.vlist [])]
    [Val.vdict [("b", Val.vint 2)]] [] [Val.vdict [("a", Val.vint 1)]] _
    rfl rfl rfl rfl rfl rfl

/-- Counterexample to claim C7's stated precondition: this update record has
an in-range `_idx` and no sequence-valued patch key — so the precondition
the claim states (every `_idx` in range, sequence-valued patch keys target
sequences) holds of the books sequence at merge time — yet the merge step
fails, because the record's mapping-valued patch key targets a field that
does not exist in the addressed book. -/
theorem C7_precondition_insufficient_cex :
    claimPre [Val.vdict []] exUpdsC7 = true ∧
    receiveMerge (some exSnapC7) exDataC7 = none :=
  ⟨rfl, rfl⟩

/-- Amended claim C7: `_idx` bounds are not defensively checked — the merge
step fails on a concrete response whose update record addresses index 5 of
a one-element books sequence — while under the strengthened precondition
(each update record is a mapping with unique keys and an integer `_idx` in
range of the books sequence at the time the record applies, each
sequence-valued patch key targets an existing sequence field, each
mapping-valued patch key targets an existing mapping field, and the
response carries no top-level books key) the merge step completes without
error. -/
theorem C7_idx_bounds (snap data bdd : Dict) (ins us bs : List Val)
    (hbd : dget data "books_diff" = some (Val.vdict bdd))
    (hins : dget bdd "insert" = some (Val.vlist ins))
    (hus : dget bdd "update" = some (Val.vlist us))
    (hsb : dget snap "books" = some (Val.vlist bs))
    (hnob : dget data "books" = none)
    (hwf : updsWF (bs ++ ins) us) :
    (receiveMerge (some snap) data).isSome = true ∧
    receiveMerge (some exSnapC7) exDataC7oor = none := by
  refine ⟨?_, rfl⟩
  rw [receiveMerge_diff hbd hins hus hsb]
  have hs2 : dget (topOverwrite (dset snap "books" (Val.vlist (bs ++ ins))) data) "books"
      = some (Val.vlist (bs ++ ins)) := by
    rw [topOverwrite_dget_of_keys (keys_of_dget_eq_none hnob), dget_dset_self]
  rw [optFold_applyUpdate_bridge us _ _ hs2]
  obtain ⟨bs', hfold⟩ := updsWF_some us hwf
  rw [hfold]
  rfl

/-- Witness for the amended C7: a well-formed update (sequence extension
plus scalar overwrite at index 0) merges without error. -/
theorem C7_idx_bounds_witness :
    (receiveMerge (some exSnapC1) exDataC7w).isSome = true ∧
    receiveMerge (some exSnapC7) exDataC7oor = none :=
  C7_idx_bounds exSnapC1 exDataC7w
    [("insert", Val.vlist []), ("update", Val.vlist exUpdsC7w)]
    [] exUpdsC7w [Val.vdict [("a", Val.vint 1), ("list", Val.vlist [Val.vint 1])]]
    rfl rfl rfl rfl rfl
    ⟨⟨by decide, Val.vint 0, 0, 0, rfl, rfl, rfl, by decide⟩, fun _ _ => trivial⟩

/-- Claim C9: whenever any HTTP response of a tool invocation — the initial
search or any polling round — has a non-200 status, the tool reports an
error to the context and returns the JSON `{"books": []}` (modelled as
`ToolRes.errorBooks`), and no further request is issued in that invocation:
no request effect ever follows a reported error. -/
theorem C9_non200_aborts :
    (∀ (st : Nat) (b : Val) (env : List HResp), st ≠ 200 →
      nlibTool (⟨st, b⟩ :: env) =
        some ([TEff.reqSearch, TEff.ctxError], ToolRes.errorBooks)) ∧
    (∀ (uuid : Val) (da : Dict) (remv : Val) (st : Nat) (b : Val) (rest : List HResp),
      dget da "remains" = some remv →
      pyIn (Val.vstr "中津川市") remv = some true →
      st ≠ 200 →
      pollLoop uuid da (⟨st, b⟩ :: rest) =
        some ([TEff.reqPolling uuid ((dget da "version").getD Val.vnull),
               TEff.ctxInfo, TEff.ctxError], ToolRes.errorBooks)) ∧
    (∀ (env : List HResp) (effs : List TEff) (res : ToolRes),
      nlibTool env = some (effs, res) → noReqAfterError effs = true) := by
  refine ⟨?_, ?_, ?_⟩
  · intro st b env hst
    have hf : (st == 200) = false := by simpa using hst
    simp [nlibTool, hf]
  · intro uuid da remv st b rest hrem hin hst
    have hf : (st == 200) = false := by simpa using hst
    rw [pollLoop]
    simp [hrem, hin, hf]
  · intro env effs res h
    cases env with
    | nil => simp [nlibTool] at h
    | cons r rest =>
      simp only [nlibTool] at h
      split at h
      · split at h
        · split at h
          · rename_i effs' res' heq
            simp only [Option.some.injEq, Prod.mk.injEq] at h
            rw [← h.1]
            simpa [noReqAfterError] using pollLoop_noReq rest _ _ effs' res' heq
          · simp at h
        · simp at h
      · simp only [Option.some.injEq, Prod.mk.injEq] at h
        rw [← h.1]
        rfl

/-- Witness for C9: a 404 on the initial search. -/
theorem C9_non200_aborts_witness :
    nlibTool [⟨404, Val.vnull⟩] =
      some ([TEff.reqSearch, TEff.ctxError], ToolRes.errorBooks) :=
  C9_non200_aborts.1 404 Val.vnull [] (by decide)

/-- Claim C10: for every successful tool invocation, the returned books are
exactly the summaries built from the records of the final response's books
whose `holdings` field exists and contains library id 100914 — every
returned record comes from such a record, and records without such a
holdings entry are silently excluded. -/
theorem C10_holdings_filter (env : List HResp) (effs : List TEff)
    (rets : List BookSummary)
    (h : nlibTool env = some (effs, ToolRes.okBooks rets)) :
    ∃ (d : Dict) (bsv : List Val),
      dget d "books" = some (Val.vlist bsv) ∧
      mkRets bsv = some rets ∧
      mapOpt buildSummary (bsv.filter (fun b => holdingsMatch b == some true)) = some rets ∧
      ∀ s ∈ rets, ∃ b ∈ bsv, holdingsMatch b = some true ∧ buildSummary b = some s := by
  cases env with
  | nil => simp [nlibTool] at h
  | cons r rest =>
    simp only [nlibTool] at h
    split at h
    · split at h
      · split at h
        · rename_i effs' res' heq
          simp only [Option.some.injEq, Prod.mk.injEq] at h
          rw [h.2] at heq
          obtain ⟨d, bsv, hdg, hmk⟩ := pollLoop_okBooks rest _ _ effs' rets heq
          refine ⟨d, bsv, hdg, hmk, mkRets_eq_mapOpt bsv hmk, ?_⟩
          intro s hs
          obtain ⟨b, hb, hfb⟩ := mapOpt_mem buildSummary _ (mkRets_eq_mapOpt bsv hmk) s hs
          have hbm : b ∈ bsv := List.mem_of_mem_filter hb
          have hhold : holdingsMatch b = some true := by
            have hfil := List.of_mem_filter hb
            simpa using hfil
          exact ⟨b, hbm, hhold, hfb⟩
        · simp at h
      · simp at h
    · simp only [Option.some.injEq, Prod.mk.injEq] at h
      exact absurd h.2 (by intro hr; cases hr)

/-- Witness for C10: a one-response invocation whose books hold one record
with holdings containing 100914 and one without. -/
theorem C10_holdings_filter_witness :
    ∃ (d : Dict) (bsv : List Val),
      dget d "books" = some (Val.vlist bsv) ∧
      mkRets bsv = some [exSummaryA] ∧
      mapOpt buildSummary (bsv.filter (fun b => holdingsMatch b == some true)) =
        some [exSummaryA] ∧
      ∀ s ∈ [exSummaryA], ∃ b ∈ bsv, holdingsMatch b = some true ∧ buildSummary b = some s :=
  C10_holdings_filter [⟨200, Val.vdict exDataC10⟩] [TEff.reqSearch] [exSummaryA] rfl
